import Mathlib

/-!
Shallow embedding of the Zayko canteen core: the wallet ledger engine
(`updateCanteenWallet` from `lib/canteen-wallet.ts`, the withdrawal route
`app/api/admin/wallet/withdraw/route.ts`) and the demand forecast engine
(`app/api/admin/auto-orders-forecast/route.ts`), together with proofs of the
spec's claims about them.

Modelling conventions: JS numbers are `Int`; Firestore documents are Lean
structures; a Firestore `Map`/document collection keyed by id is an
association list in insertion order; a field that JS may leave `undefined`
is an `Option`; sequential Firestore writes to one document inside a
transaction apply in order, so a `FieldValue.increment` issued after a write
that set the field applies on top of the written value.
-/

namespace Zayko

/-! ### Wallet ledger data model -/

structure Wallet where
  totalBalance : Int
  pendingAmount : Int
  todayCollection : Int
  todayDate : String
  lastUpdated : String
deriving DecidableEq

structure WalletTransaction where
  amount : Int
  type : String
  orderId : Option String
  description : String
  createdAt : String
deriving DecidableEq

/-- `["confirmed", "preparing", "ready"].includes s` -/
def isActiveStatus (s : String) : Bool :=
  s == "confirmed" || s == "preparing" || s == "ready"

/-- Embedding of `updateCanteenWallet(transaction, oldStatus, newStatus, amount,
orderId)`. `wallet` is the stored document (or `none`), `todayDate` the caller's
current IST date string, `now` the current timestamp string. Returns the wallet
document after the transaction commits and the list of `canteenTransactions`
records written (the source writes at most one). -/
def updateCanteenWallet (wallet : Option Wallet) (oldStatus newStatus : String)
    (amount : Int) (orderId : String) (todayDate now : String) :
    Option Wallet × List WalletTransaction :=
  if amount ≤ 0 ∨ oldStatus = newStatus then (wallet, [])
  else
    -- lazy init / day rollover: these writes are issued before the delta
    -- increments, so the increments land on the reset values
    let w0 : Wallet :=
      match wallet with
      | none => ⟨0, 0, 0, todayDate, now⟩
      | some w =>
        if w.todayDate ≠ todayDate then
          { w with todayCollection := 0, todayDate := todayDate }
        else w
    let isNewConfirmed :=
      oldStatus == "pending" &&
        (newStatus == "confirmed" || newStatus == "preparing" || newStatus == "ready")
    let isNewCompleted := isActiveStatus oldStatus && newStatus == "completed"
    let isDirectCompleted := oldStatus == "pending" && newStatus == "completed"
    let isCancellingActive := isActiveStatus oldStatus && newStatus == "cancelled"
    let isCancellingCompleted := oldStatus == "completed" && newStatus == "cancelled"
    let w1 :=
      if isNewConfirmed then { w0 with pendingAmount := w0.pendingAmount + amount } else w0
    let w2 :=
      if isNewCompleted then
        { w1 with pendingAmount := w1.pendingAmount - amount,
                  totalBalance := w1.totalBalance + amount,
                  todayCollection := w1.todayCollection + amount }
      else if isDirectCompleted then
        { w1 with totalBalance := w1.totalBalance + amount,
                  todayCollection := w1.todayCollection + amount }
      else w1
    let w3 :=
      if isCancellingActive then { w2 with pendingAmount := w2.pendingAmount - amount } else w2
    let w4 :=
      if isCancellingCompleted then { w3 with totalBalance := w3.totalBalance - amount } else w3
    -- transactionRecordDetails: last assignment wins, as in the source
    let record0 : Option WalletTransaction :=
      if isNewCompleted then
        some ⟨amount, "credit", some orderId, "Order Completed - #" ++ orderId, now⟩
      else if isDirectCompleted then
        some ⟨amount, "credit", some orderId, "Order Completed (Direct) - #" ++ orderId, now⟩
      else none
    let record1 : Option WalletTransaction :=
      if isCancellingCompleted then
        some ⟨amount, "refund_deduction", some orderId, "Order Refunded - #" ++ orderId, now⟩
      else record0
    -- `Object.keys(updates).length > 1` (1 is lastUpdated)
    let anyCounterUpdate :=
      isNewConfirmed || isNewCompleted || isDirectCompleted ||
        isCancellingActive || isCancellingCompleted
    let wOut := if anyCounterUpdate then { w4 with lastUpdated := now } else w4
    (some wOut, record1.toList)

/-! ### Withdrawal route -/

structure WithdrawalRecord where
  amount : Int
  status : String
  requestedAt : String
  processedAt : String
deriving DecidableEq

inductive WithdrawResult where
  | err (message : String)
  | ok (wallet : Wallet) (txn : WalletTransaction) (receipt : WithdrawalRecord)
deriving DecidableEq

/-- Embedding of the `POST /api/admin/wallet/withdraw` handler body (after
admin auth). `!amount || amount <= 0` collapses to `amount ≤ 0` on `Int`.
On success the transaction commits the decremented wallet, one `withdrawal`
ledger record and one `withdrawals` receipt; a thrown error aborts it all. -/
def withdrawPOST (wallet : Option Wallet) (amount : Int) (now : String) : WithdrawResult :=
  if amount ≤ 0 then .err "Invalid withdrawal amount"
  else
    match wallet with
    | none => .err "Wallet not found"
    | some w =>
      if w.totalBalance < amount then .err "Insufficient balance for withdrawal"
      else
        .ok { w with totalBalance := w.totalBalance - amount, lastUpdated := now }
          ⟨amount, "withdrawal", none, "Wallet Withdrawal", now⟩
          ⟨amount, "completed", now, now⟩

/-- Stored wallet document after the withdrawal request: unchanged when the
transaction throws (Firestore aborts all writes), else the committed wallet. -/
def withdrawWalletAfter (wallet : Option Wallet) (amount : Int) (now : String) : Option Wallet :=
  match withdrawPOST wallet amount now with
  | .err _ => wallet
  | .ok w _ _ => some w

/-! ### Forecast engine data model -/

inductive DayOfWeek where
  | Sun | Mon | Tue | Wed | Thu | Fri | Sat
deriving DecidableEq

def ALL_DAYS : List DayOfWeek := [.Mon, .Tue, .Wed, .Thu, .Fri, .Sat, .Sun]

def WEEKDAYS : List DayOfWeek := [.Mon, .Tue, .Wed, .Thu, .Fri]

/-- `DAY_MAP`, indexed by `getUTCDay()` (0 = Sunday). -/
def dayMap (n : Nat) : DayOfWeek :=
  match n % 7 with
  | 0 => .Sun
  | 1 => .Mon
  | 2 => .Tue
  | 3 => .Wed
  | 4 => .Thu
  | 5 => .Fri
  | _ => .Sat

def IST_OFFSET_MS : Nat := 19800000

def MS_PER_DAY : Nat := 86400000

/-- `getISTDate(t).dayOfWeek` for a UTC epoch-millisecond timestamp `t`:
the epoch day (t = 0) is a Thursday, so `getUTCDay` of the shifted time is
`(days since epoch + 4) % 7` (the `% 7` is folded into `dayMap`). -/
def istDayOfWeek (t : Nat) : DayOfWeek :=
  dayMap ((t + IST_OFFSET_MS) / MS_PER_DAY + 4)

/-- IST calendar-day ordinal, standing in for `getISTDate(t).dateStr`
(the claims never inspect the textual `YYYY-MM-DD` rendering). -/
def istDayNumber (t : Nat) : Nat :=
  (t + IST_OFFSET_MS) / MS_PER_DAY

/-- Embedding of `getScheduledDays(frequency, customDays)`; a `frequency`
field absent from the document is `none`, and a `customDays` that is not an
array is `none` (the `Array.isArray` guard). -/
def getScheduledDays (frequency : Option String) (customDays : Option (List DayOfWeek)) :
    List DayOfWeek :=
  if frequency = some "daily" then ALL_DAYS
  else if frequency = some "weekdays" then WEEKDAYS
  else if frequency = some "custom" then customDays.getD []
  else []

structure MenuItem where
  id : String
  name : String
  price : Int
  stock : Int
  available : Bool
deriving DecidableEq

/-- The raw `autoOrders` document fields the forecast reads. -/
structure AutoOrderDoc where
  id : String
  userId : String
  itemId : String
  itemName : Option String
  quantity : Option Int
  frequency : Option String
  customDays : Option (List DayOfWeek)
  status : String
deriving DecidableEq

structure EnrichedAutoOrder where
  itemId : String
  itemName : String
  quantity : Int
  scheduledDays : List DayOfWeek
deriving DecidableEq

/-- `d.quantity || 1`: a falsy (absent or zero) quantity falls back to 1. -/
def effQuantity (q : Option Int) : Int :=
  match q with
  | none => 1
  | some v => if v = 0 then 1 else v

/-- One element of the enriched auto-orders list (the fields the demand
aggregation and forecast read). -/
def enrichOrder (menuMap : List MenuItem) (d : AutoOrderDoc) : EnrichedAutoOrder :=
  { itemId := d.itemId
    itemName :=
      d.itemName.getD (((menuMap.find? (fun m => m.id == d.itemId)).map MenuItem.name).getD "Unknown")
    quantity := effQuantity d.quantity
    scheduledDays := getScheduledDays d.frequency d.customDays }

/-- A `demandMap` record: key `itemId::day`, value the summed quantity. -/
structure DemandEntry where
  itemId : String
  itemName : String
  day : DayOfWeek
  totalQuantity : Int
deriving DecidableEq

/-- One `demandMap.get(key)` / `existing.totalQuantity += q` / `demandMap.set`
step: update the (unique) entry with this key, or append a fresh one. -/
def addDemand (o : EnrichedAutoOrder) (day : DayOfWeek) :
    List DemandEntry → List DemandEntry
  | [] => [⟨o.itemId, o.itemName, day, o.quantity⟩]
  | e :: rest =>
    if e.itemId == o.itemId && e.day == day then
      { e with totalQuantity := e.totalQuantity + o.quantity } :: rest
    else e :: addDemand o day rest

/-- The aggregation loop over orders and their scheduled days. -/
def buildDemandMap (orders : List EnrichedAutoOrder) : List DemandEntry :=
  orders.foldl (fun m o => o.scheduledDays.foldl (fun m2 d => addDemand o d m2) m) []

/-- `demandMap.get(itemId::day)?.totalQuantity || 0`. -/
def demandLookup (m : List DemandEntry) (i : String) (day : DayOfWeek) : Int :=
  match m.find? (fun e => e.itemId == i && e.day == day) with
  | some e => e.totalQuantity
  | none => 0

def dayIdx (d : DayOfWeek) : Nat := ALL_DAYS.indexOf d

/-- The `aggregateDemand` sort comparator, as the relation
"compares ≤ 0": name before, or same name and day index ≤. -/
def aggRel (a b : DemandEntry) : Prop :=
  a.itemName < b.itemName ∨ (a.itemName = b.itemName ∧ dayIdx a.day ≤ dayIdx b.day)

instance : DecidableRel aggRel := fun a b => by
  unfold aggRel; infer_instance

/-- `Array.from(demandMap.values()).sort(...)` (a stable comparator sort). -/
def aggregateDemand (orders : List EnrichedAutoOrder) : List DemandEntry :=
  (buildDemandMap orders).insertionSort aggRel

/-- A `dailyTotalMap` record. -/
structure DailyTotal where
  itemId : String
  itemName : String
  totalDaily : Int
deriving DecidableEq

/-- One `dailyTotalMap` step: max-merge this entry into the item's record,
or append a fresh record. -/
def addDailyTotal (e : DemandEntry) : List DailyTotal → List DailyTotal
  | [] => [⟨e.itemId, e.itemName, e.totalQuantity⟩]
  | t :: rest =>
    if t.itemId == e.itemId then
      { t with totalDaily := max t.totalDaily e.totalQuantity } :: rest
    else t :: addDailyTotal e rest

def buildDailyTotals (entries : List DemandEntry) : List DailyTotal :=
  entries.foldl (fun m e => addDailyTotal e m) []

def dailyTotalLookup (l : List DailyTotal) (i : String) : Option Int :=
  (l.find? (fun t => t.itemId == i)).map DailyTotal.totalDaily

/-- `dailyTotalMap` as the source builds it: folded over the sorted
`aggregateDemand` list. -/
def dailyDemandByItem (orders : List EnrichedAutoOrder) : List DailyTotal :=
  buildDailyTotals (aggregateDemand orders)

structure ForecastDayItem where
  itemId : String
  itemName : String
  demand : Int
  currentStock : Int
  cumulativeDemand : Int
  remaining : Int
  risk : Bool
deriving DecidableEq

structure ForecastDay where
  date : Nat
  dayName : DayOfWeek
  items : List ForecastDayItem
deriving DecidableEq

/-- The inner `for (const [itemId, menuItem] of menuMap.entries())` loop of one
forecast day: `tr` is `cumulativeDemandTracker` as a total function
(`get(...) || 0` built in). Returns the updated tracker and the day's
(unsorted) item list. -/
def walkItems (dm : List DemandEntry) (day : DayOfWeek) :
    (String → Int) → List MenuItem → (String → Int) × List ForecastDayItem
  | tr, [] => (tr, [])
  | tr, mi :: rest =>
    let todayDemand := demandLookup dm mi.id day
    if todayDemand = 0 then walkItems dm day tr rest
    else
      let newCum := tr mi.id + todayDemand
      let tr2 := fun k => if k == mi.id then newCum else tr k
      let res := walkItems dm day tr2 rest
      (res.1,
        ⟨mi.id, mi.name, todayDemand, mi.stock, newCum, mi.stock - newCum,
          decide (mi.stock - newCum < 0)⟩ :: res.2)

/-- The day sort comparator as the relation "compares ≤ 0": risky items
first, ties broken by name. -/
def itemRel (a b : ForecastDayItem) : Prop :=
  if a.risk = b.risk then a.itemName ≤ b.itemName else a.risk = true

instance : DecidableRel itemRel := fun a b => by
  unfold itemRel; infer_instance

/-- The `for (let offset = 0; offset < 7; offset++)` walk, one recursive call
per offset, threading `cumulativeDemandTracker`. -/
def forecastFrom (menuMap : List MenuItem) (dm : List DemandEntry) (now : Nat) :
    List Nat → (String → Int) → List ForecastDay
  | [], _ => []
  | o :: rest, tr =>
    let t := now + o * MS_PER_DAY
    let step := walkItems dm (istDayOfWeek t) tr menuMap
    { date := istDayNumber t, dayName := istDayOfWeek t,
      items := step.2.insertionSort itemRel } :: forecastFrom menuMap dm now rest step.1

/-- The full 7-day forecast: offsets 0..6, tracker initially empty. -/
def forecast (menuMap : List MenuItem) (dm : List DemandEntry) (now : Nat) : List ForecastDay :=
  forecastFrom menuMap dm now (List.range 7) (fun _ => 0)

/-- Cumulative demand of item `i` over the given offsets (a specification
expression used to state what the walk's tracker computes). -/
def cumDemand (dm : List DemandEntry) (i : String) (now : Nat) (offs : List Nat) : Int :=
  (offs.map (fun o => demandLookup dm i (istDayOfWeek (now + o * MS_PER_DAY)))).sum

def menuIds (l : List MenuItem) : List String := l.map MenuItem.id

/-! ### Claims about the wallet ledger -/

/-- C4: a call with `amount <= 0` or `oldStatus === newStatus` is a silent
no-op: the wallet is untouched and no transaction record is written. -/
theorem c4_noop_guard (wallet : Option Wallet) (oldStatus newStatus : String)
    (amount : Int) (orderId todayDate now : String)
    (h : amount ≤ 0 ∨ oldStatus = newStatus) :
    updateCanteenWallet wallet oldStatus newStatus amount orderId todayDate now = (wallet, []) := by
  unfold updateCanteenWallet
  rw [if_pos h]

theorem c4_noop_guard_witness :
    (((0 : Int) ≤ 0 ∨ ("preparing" : String) = "preparing") ∧
      updateCanteenWallet (some ⟨1, 2, 3, "d", "l"⟩) "preparing" "preparing" 0 "o" "d" "n"
        = (some ⟨1, 2, 3, "d", "l"⟩, [])) :=
  ⟨Or.inr rfl,
    c4_noop_guard (some ⟨1, 2, 3, "d", "l"⟩) "preparing" "preparing" 0 "o" "d" "n" (Or.inr rfl)⟩

/-- C2: withdrawal of `amount > 0` fails with insufficient funds exactly when
`amount` exceeds `totalBalance`, fails with wallet-not-found when no wallet
document exists, leaves the stored wallet unchanged on failure, and on success
decrements `totalBalance` by `amount`, writes one `withdrawal` ledger record
and one completed receipt; the stored wallet's `pendingAmount` and
`todayCollection` are never changed. -/
theorem c2_withdraw (wallet : Option Wallet) (amount : Int) (now : String)
    (hpos : 0 < amount) :
    (wallet = none → withdrawPOST wallet amount now = .err "Wallet not found") ∧
    (∀ w, wallet = some w →
      ((withdrawPOST wallet amount now = .err "Insufficient balance for withdrawal") ↔
          w.totalBalance < amount) ∧
      (w.totalBalance < amount → withdrawWalletAfter wallet amount now = wallet) ∧
      (amount ≤ w.totalBalance →
        withdrawPOST wallet amount now = .ok
          { w with totalBalance := w.totalBalance - amount, lastUpdated := now }
          ⟨amount, "withdrawal", none, "Wallet Withdrawal", now⟩
          ⟨amount, "completed", now, now⟩) ∧
      (∀ w2, withdrawWalletAfter wallet amount now = some w2 →
        w2.pendingAmount = w.pendingAmount ∧ w2.todayCollection = w.todayCollection)) := by
  have hg : ¬ amount ≤ 0 := not_le.mpr hpos
  constructor
  · rintro rfl
    unfold withdrawPOST
    rw [if_neg hg]
  · rintro w rfl
    by_cases hb : w.totalBalance < amount
    · have h1 : withdrawPOST (some w) amount now = .err "Insufficient balance for withdrawal" := by
        simp [withdrawPOST, hg, hb]
      refine ⟨by simp [h1, hb], fun _ => ?_, fun hle => absurd hb (not_lt.mpr hle), fun w2 h2 => ?_⟩
      · unfold withdrawWalletAfter
        rw [h1]
      · unfold withdrawWalletAfter at h2
        rw [h1] at h2
        cases h2
        exact ⟨rfl, rfl⟩
    · have h1 : withdrawPOST (some w) amount now = .ok
          { w with totalBalance := w.totalBalance - amount, lastUpdated := now }
          ⟨amount, "withdrawal", none, "Wallet Withdrawal", now⟩
          ⟨amount, "completed", now, now⟩ := by
        simp [withdrawPOST, hg, hb]
      refine ⟨by simp [h1, hb], fun hlt => absurd hlt hb, fun _ => h1, fun w2 h2 => ?_⟩
      unfold withdrawWalletAfter at h2
      rw [h1] at h2
      cases h2
      exact ⟨rfl, rfl⟩

theorem c2_withdraw_witness :
    (0 : Int) < 150 ∧
      (withdrawPOST (some ⟨100, 5, 7, "d", "l"⟩) 150 "n" = .err "Insufficient balance for withdrawal" ↔
        (100 : Int) < 150) :=
  ⟨by norm_num,
    ((c2_withdraw (some ⟨100, 5, 7, "d", "l"⟩) 150 "n" (by norm_num)).2
      ⟨100, 5, 7, "d", "l"⟩ rfl).1⟩

/-- C3: when the stored `todayDate` differs from the caller's current date,
any transition with `amount > 0` and distinct statuses first resets
`todayCollection` to 0 and stamps the new date, then adds this transition's
contribution — `amount` for a completion credit, 0 for every other
transition — so the final `todayCollection` is exactly that contribution. -/
theorem c3_rollover (w : Wallet) (oldStatus newStatus : String) (amount : Int)
    (orderId todayDate now : String)
    (hpos : 0 < amount) (hneq : oldStatus ≠ newStatus) (hday : w.todayDate ≠ todayDate) :
    ((updateCanteenWallet (some w) oldStatus newStatus amount orderId todayDate now).1.map
        Wallet.todayDate = some todayDate) ∧
    ((updateCanteenWallet (some w) oldStatus newStatus amount orderId todayDate now).1.map
        Wallet.todayCollection =
      some (if (isActiveStatus oldStatus && newStatus == "completed") ||
              (oldStatus == "pending" && newStatus == "completed")
            then amount else 0)) := by
  have hg : ¬ (amount ≤ 0 ∨ oldStatus = newStatus) := by
    rintro (h | h)
    · exact absurd h (not_le.mpr hpos)
    · exact hneq h
  unfold updateCanteenWallet
  rw [if_neg hg]
  cases hB1 : (oldStatus == "pending" &&
      (newStatus == "confirmed" || newStatus == "preparing" || newStatus == "ready")) <;>
    cases hC : (isActiveStatus oldStatus && newStatus == "completed") <;>
      cases hD : (oldStatus == "pending" && newStatus == "completed") <;>
        cases hB3 : (isActiveStatus oldStatus && newStatus == "cancelled") <;>
          cases hB4 : (oldStatus == "completed" && newStatus == "cancelled") <;>
            simp [hday, hB1, hC, hD, hB3, hB4]

theorem c3_rollover_witness :
    (0 : Int) < 100 ∧ ("confirmed" : String) ≠ "completed" ∧
      (("2024-01-01" : String) ≠ "2024-01-02") ∧
      ((updateCanteenWallet (some ⟨1000, 100, 500, "2024-01-01", "t0"⟩)
          "confirmed" "completed" 100 "o1" "2024-01-02" "t1").1.map Wallet.todayDate =
        some "2024-01-02") ∧
      ((updateCanteenWallet (some ⟨1000, 100, 500, "2024-01-01", "t0"⟩)
          "confirmed" "completed" 100 "o1" "2024-01-02" "t1").1.map Wallet.todayCollection =
        some (if (isActiveStatus "confirmed" && "completed" == "completed") ||
                ("confirmed" == "pending" && "completed" == "completed")
              then (100 : Int) else 0)) := by
  refine ⟨by norm_num, by decide, by decide, ?_, ?_⟩
  · exact (c3_rollover ⟨1000, 100, 500, "2024-01-01", "t0"⟩ "confirmed" "completed" 100 "o1"
      "2024-01-02" "t1" (by norm_num) (by decide) (by decide)).1
  · exact (c3_rollover ⟨1000, 100, 500, "2024-01-01", "t0"⟩ "confirmed" "completed" 100 "o1"
      "2024-01-02" "t1" (by norm_num) (by decide) (by decide)).2

/-- C1: on a same-day call with `amount > 0` and distinct statuses, every row
of the transition table holds exactly: escrow entry adds to `pendingAmount`;
completion moves `amount` from `pendingAmount` into `totalBalance` and
`todayCollection` with exactly one `credit` record; direct completion credits
without the escrow deduction; cancelling an active order refunds escrow;
cancelling a completed order deducts `totalBalance` with one
`refund_deduction` record; cancelling a pending order touches nothing. -/
theorem c1_transition_table (w : Wallet) (oldStatus newStatus : String)
    (amount : Int) (orderId todayDate now : String)
    (hpos : 0 < amount) (hday : w.todayDate = todayDate) :
    ((oldStatus = "pending" ∧
        (newStatus = "confirmed" ∨ newStatus = "preparing" ∨ newStatus = "ready")) →
      updateCanteenWallet (some w) oldStatus newStatus amount orderId todayDate now =
        (some { w with pendingAmount := w.pendingAmount + amount, lastUpdated := now }, [])) ∧
    ((isActiveStatus oldStatus = true ∧ newStatus = "completed") →
      updateCanteenWallet (some w) oldStatus newStatus amount orderId todayDate now =
        (some { w with pendingAmount := w.pendingAmount - amount,
                       totalBalance := w.totalBalance + amount,
                       todayCollection := w.todayCollection + amount, lastUpdated := now },
          [⟨amount, "credit", some orderId, "Order Completed - #" ++ orderId, now⟩])) ∧
    ((oldStatus = "pending" ∧ newStatus = "completed") →
      updateCanteenWallet (some w) oldStatus newStatus amount orderId todayDate now =
        (some { w with totalBalance := w.totalBalance + amount,
                       todayCollection := w.todayCollection + amount, lastUpdated := now },
          [⟨amount, "credit", some orderId, "Order Completed (Direct) - #" ++ orderId, now⟩])) ∧
    ((isActiveStatus oldStatus = true ∧ newStatus = "cancelled") →
      updateCanteenWallet (some w) oldStatus newStatus amount orderId todayDate now =
        (some { w with pendingAmount := w.pendingAmount - amount, lastUpdated := now }, [])) ∧
    ((oldStatus = "completed" ∧ newStatus = "cancelled") →
      updateCanteenWallet (some w) oldStatus newStatus amount orderId todayDate now =
        (some { w with totalBalance := w.totalBalance - amount, lastUpdated := now },
          [⟨amount, "refund_deduction", some orderId, "Order Refunded - #" ++ orderId, now⟩])) ∧
    ((oldStatus = "pending" ∧ newStatus = "cancelled") →
      updateCanteenWallet (some w) oldStatus newStatus amount orderId todayDate now =
        (some w, [])) := by
  have hg : ¬ amount ≤ 0 := not_le.mpr hpos
  subst hday
  have hAct : ∀ s, isActiveStatus s = true →
      s = "confirmed" ∨ s = "preparing" ∨ s = "ready" := by
    intro s hs
    have h2 : (s = "confirmed" ∨ s = "preparing") ∨ s = "ready" := by
      simpa [isActiveStatus] using hs
    tauto
  refine ⟨?_, ?_, ?_, ?_, ?_, ?_⟩
  · rintro ⟨rfl, rfl | rfl | rfl⟩ <;> simp [updateCanteenWallet, isActiveStatus, hg]
  · rintro ⟨hs, rfl⟩
    rcases hAct _ hs with rfl | rfl | rfl <;> simp [updateCanteenWallet, isActiveStatus, hg]
  · rintro ⟨rfl, rfl⟩
    simp [updateCanteenWallet, isActiveStatus, hg]
  · rintro ⟨hs, rfl⟩
    rcases hAct _ hs with rfl | rfl | rfl <;> simp [updateCanteenWallet, isActiveStatus, hg]
  · rintro ⟨rfl, rfl⟩
    simp [updateCanteenWallet, isActiveStatus, hg]
  · rintro ⟨rfl, rfl⟩
    simp [updateCanteenWallet, isActiveStatus, hg]

/-- The spec's worked instance: `confirmed→completed`, amount 250, on wallet
`{pendingAmount: 250, totalBalance: 1000}`. -/
theorem c1_transition_table_witness :
    (0 : Int) < 250 ∧
      updateCanteenWallet (some ⟨1000, 250, 0, "2024-01-01", "t0"⟩)
          "confirmed" "completed" 250 "o1" "2024-01-01" "t1" =
        (some ⟨1250, 0, 250, "2024-01-01", "t1"⟩,
          [⟨250, "credit", some "o1", "Order Completed - #o1", "t1"⟩]) := by
  refine ⟨by norm_num, ?_⟩
  have h := (c1_transition_table ⟨1000, 250, 0, "2024-01-01", "t0"⟩ "confirmed" "completed"
    250 "o1" "2024-01-01" "t1" (by norm_num) rfl).2.1 ⟨by decide, rfl⟩
  exact h.trans (by decide)

/-! ### Claims about the forecast schedule resolution -/

/-- C6: `daily` resolves to all seven days, `weekdays` to Monday–Friday,
`custom` to exactly the provided day set, and any other or missing frequency
to the empty set. -/
theorem c6_scheduled_days (frequency : Option String)
    (customDays : Option (List DayOfWeek)) (l : List DayOfWeek) :
    (frequency = some "daily" → getScheduledDays frequency customDays = ALL_DAYS) ∧
    (frequency = some "weekdays" → getScheduledDays frequency customDays = WEEKDAYS) ∧
    (frequency = some "custom" → customDays = some l →
      getScheduledDays frequency customDays = l) ∧
    (frequency ≠ some "daily" → frequency ≠ some "weekdays" → frequency ≠ some "custom" →
      getScheduledDays frequency customDays = []) := by
  unfold getScheduledDays
  refine ⟨fun h => ?_, fun h => ?_, fun h hc => ?_, fun h1 h2 h3 => ?_⟩
  · rw [if_pos h]
  · subst h
    rfl
  · subst h hc
    rfl
  · rw [if_neg h1, if_neg h2, if_neg h3]

theorem c6_scheduled_days_witness :
    getScheduledDays (some "daily") (some [DayOfWeek.Tue]) = ALL_DAYS ∧
    getScheduledDays (some "custom") (some [DayOfWeek.Tue]) = [DayOfWeek.Tue] ∧
    getScheduledDays (some "weekly") none = [] :=
  ⟨(c6_scheduled_days (some "daily") (some [.Tue]) [.Tue]).1 rfl,
    (c6_scheduled_days (some "custom") (some [.Tue]) [.Tue]).2.2.1 rfl rfl,
    (c6_scheduled_days (some "weekly") none []).2.2.2 (by decide) (by decide) (by decide)⟩

/-! ### Demand aggregation lemmas -/

theorem demandLookup_addDemand (o : EnrichedAutoOrder) (day : DayOfWeek)
    (i : String) (d : DayOfWeek) :
    ∀ m : List DemandEntry,
      demandLookup (addDemand o day m) i d =
        demandLookup m i d + (if o.itemId = i ∧ day = d then o.quantity else 0) := by
  intro m
  induction m with
  | nil =>
    by_cases h : o.itemId = i ∧ day = d
    · obtain ⟨h1, h2⟩ := h
      simp [addDemand, demandLookup, List.find?, h1, h2]
    · have hb : ((o.itemId == i) && (day == d)) = false := by
        rw [Bool.and_eq_false_iff]
        rcases Decidable.not_and_iff_or_not.mp h with h1 | h1
        · exact Or.inl (beq_eq_false_iff_ne.mpr h1)
        · exact Or.inr (beq_eq_false_iff_ne.mpr h1)
      simp [addDemand, demandLookup, List.find?, hb, h]
  | cons e rest ih =>
    by_cases hhead : ((e.itemId == o.itemId) && (e.day == day)) = true
    · obtain ⟨he1, he2⟩ := Bool.and_eq_true_iff.mp hhead
      rw [beq_iff_eq] at he1 he2
      by_cases hmatch : ((e.itemId == i) && (e.day == d)) = true
      · obtain ⟨hm1, hm2⟩ := Bool.and_eq_true_iff.mp hmatch
        rw [beq_iff_eq] at hm1 hm2
        have hcond : o.itemId = i ∧ day = d := ⟨he1 ▸ hm1, he2 ▸ hm2⟩
        simp [addDemand, demandLookup, List.find?, hhead, hmatch, hcond]
      · have hcond : ¬ (o.itemId = i ∧ day = d) := by
          rintro ⟨h1, h2⟩
          exact hmatch (by simp [he1.trans h1, he2.trans h2])
        simp [addDemand, demandLookup, List.find?, hhead, hmatch, hcond]
    · by_cases hmatch : ((e.itemId == i) && (e.day == d)) = true
      · obtain ⟨hm1, hm2⟩ := Bool.and_eq_true_iff.mp hmatch
        rw [beq_iff_eq] at hm1 hm2
        have hcond : ¬ (o.itemId = i ∧ day = d) := by
          rintro ⟨h1, h2⟩
          exact hhead (by simp [hm1.trans h1.symm, hm2.trans h2.symm])
        simp [addDemand, demandLookup, List.find?, hhead, hmatch, hcond]
      · have hstep : addDemand o day (e :: rest) = e :: addDemand o day rest := by
          simp [addDemand, hhead]
        rw [hstep]
        have l1 : demandLookup (e :: addDemand o day rest) i d =
            demandLookup (addDemand o day rest) i d := by
          simp [demandLookup, List.find?, hmatch]
        have l2 : demandLookup (e :: rest) i d = demandLookup rest i d := by
          simp [demandLookup, List.find?, hmatch]
        rw [l1, l2, ih]

theorem demandLookup_foldDays (o : EnrichedAutoOrder) (i : String) (d : DayOfWeek) :
    ∀ (days : List DayOfWeek) (m : List DemandEntry),
      demandLookup (days.foldl (fun m2 d2 => addDemand o d2 m2) m) i d =
        demandLookup m i d +
          (if o.itemId = i then (days.count d : Int) * o.quantity else 0) := by
  intro days
  induction days with
  | nil => intro m; simp
  | cons d0 rest ih =>
    intro m
    rw [List.foldl_cons, ih (addDemand o d0 m), demandLookup_addDemand]
    have hcount : ((d0 :: rest).count d : Int) = (rest.count d : Int) +
        (if d0 = d then 1 else 0) := by
      rw [List.count_cons]
      by_cases hd : d0 = d <;> simp [hd]
    rw [hcount]
    by_cases hi : o.itemId = i
    · by_cases hd : d0 = d
      · simp only [hi, hd, if_pos, and_self, if_true]
        ring
      · have hni : ¬ (o.itemId = i ∧ d0 = d) := fun hc => hd hc.2
        rw [if_neg hni, if_pos hi, if_pos hi, if_neg hd]
        ring
    · have : ¬ (o.itemId = i ∧ d0 = d) := fun hc => hi hc.1
      simp [hi, this]

/-- Appending one auto-order to the aggregation adds `count · quantity` to
its item's demand on each day and changes no other key. -/
theorem demandLookup_append_one (orders : List EnrichedAutoOrder) (o : EnrichedAutoOrder)
    (i : String) (d : DayOfWeek) :
    demandLookup (buildDemandMap (orders ++ [o])) i d =
      demandLookup (buildDemandMap orders) i d +
        (if o.itemId = i then (o.scheduledDays.count d : Int) * o.quantity else 0) := by
  unfold buildDemandMap
  rw [List.foldl_append]
  simp only [List.foldl_cons, List.foldl_nil]
  exact demandLookup_foldDays o i d o.scheduledDays _

/-- C10: an auto-order whose `quantity` field is absent or zero (falsy) is not
dropped: it is enriched with quantity 1 and contributes exactly 1 unit to the
aggregated demand of its item on each of its scheduled days. -/
theorem c10_quantity_fallback (menuMap : List MenuItem) (doc : AutoOrderDoc)
    (prevOrders : List EnrichedAutoOrder) (day : DayOfWeek)
    (hq : doc.quantity = none ∨ doc.quantity = some 0)
    (hmem : day ∈ (enrichOrder menuMap doc).scheduledDays)
    (hnd : (enrichOrder menuMap doc).scheduledDays.Nodup) :
    (enrichOrder menuMap doc).quantity = 1 ∧
    demandLookup (buildDemandMap (prevOrders ++ [enrichOrder menuMap doc])) doc.itemId day =
      demandLookup (buildDemandMap prevOrders) doc.itemId day + 1 := by
  have hq1 : (enrichOrder menuMap doc).quantity = 1 := by
    rcases hq with h | h <;> simp [enrichOrder, effQuantity, h]
  refine ⟨hq1, ?_⟩
  rw [demandLookup_append_one]
  have hcount : (enrichOrder menuMap doc).scheduledDays.count day = 1 :=
    List.count_eq_one_of_mem hnd hmem
  have hid : (enrichOrder menuMap doc).itemId = doc.itemId := rfl
  rw [hq1, hcount, hid]
  simp

theorem c10_quantity_fallback_witness :
    ((⟨"a1", "u1", "item1", none, none, some "daily", none, "active"⟩ :
        AutoOrderDoc).quantity = none ∨
      (⟨"a1", "u1", "item1", none, none, some "daily", none, "active"⟩ :
        AutoOrderDoc).quantity = some 0) ∧
    (enrichOrder [] ⟨"a1", "u1", "item1", none, none, some "daily", none, "active"⟩).quantity = 1 ∧
    demandLookup (buildDemandMap ([] ++
        [enrichOrder [] ⟨"a1", "u1", "item1", none, none, some "daily", none, "active"⟩]))
        "item1" DayOfWeek.Mon =
      demandLookup (buildDemandMap []) "item1" DayOfWeek.Mon + 1 :=
  ⟨Or.inl rfl,
    c10_quantity_fallback [] ⟨"a1", "u1", "item1", none, none, some "daily", none, "active"⟩
      [] DayOfWeek.Mon (Or.inl rfl) (by decide) (by decide)⟩

/-! ### Daily-demand summary lemmas -/

/-- `omax` merges an optional running maximum with a new value. -/
def omax : Option Int → Option Int → Option Int
  | none, b => b
  | some a, none => some a
  | some a, some b => some (max a b)

theorem dailyTotalLookup_addDailyTotal (e : DemandEntry) (i : String) :
    ∀ m : List DailyTotal,
      dailyTotalLookup (addDailyTotal e m) i =
        if e.itemId = i then omax (dailyTotalLookup m i) (some e.totalQuantity)
        else dailyTotalLookup m i := by
  intro m
  induction m with
  | nil =>
    by_cases h : e.itemId = i
    · simp [addDailyTotal, dailyTotalLookup, List.find?, h, omax]
    · simp [addDailyTotal, dailyTotalLookup, List.find?, beq_eq_false_iff_ne.mpr h, h]
  | cons t rest ih =>
    by_cases hte : t.itemId = e.itemId
    · have hstep : addDailyTotal e (t :: rest) =
          { t with totalDaily := max t.totalDaily e.totalQuantity } :: rest := by
        simp [addDailyTotal, hte]
      rw [hstep]
      by_cases hti : t.itemId = i
      · have hei : e.itemId = i := hte ▸ hti
        have l1 : dailyTotalLookup ({ t with totalDaily := max t.totalDaily e.totalQuantity }
            :: rest) i = some (max t.totalDaily e.totalQuantity) := by
          simp [dailyTotalLookup, List.find?, hti]
        have l2 : dailyTotalLookup (t :: rest) i = some t.totalDaily := by
          simp [dailyTotalLookup, List.find?, hti]
        rw [l1, l2, if_pos hei]
        rfl
      · have hei : ¬ e.itemId = i := fun h => hti (hte.trans h)
        have l1 : dailyTotalLookup ({ t with totalDaily := max t.totalDaily e.totalQuantity }
            :: rest) i = dailyTotalLookup rest i := by
          simp [dailyTotalLookup, List.find?, beq_eq_false_iff_ne.mpr hti]
        have l2 : dailyTotalLookup (t :: rest) i = dailyTotalLookup rest i := by
          simp [dailyTotalLookup, List.find?, beq_eq_false_iff_ne.mpr hti]
        rw [l1, l2, if_neg hei]
    · have hstep : addDailyTotal e (t :: rest) = t :: addDailyTotal e rest := by
        simp [addDailyTotal, hte]
      rw [hstep]
      by_cases hti : t.itemId = i
      · have hei : ¬ e.itemId = i := fun h => hte (hti.trans h.symm)
        have l1 : dailyTotalLookup (t :: addDailyTotal e rest) i = some t.totalDaily := by
          simp [dailyTotalLookup, List.find?, hti]
        have l2 : dailyTotalLookup (t :: rest) i = some t.totalDaily := by
          simp [dailyTotalLookup, List.find?, hti]
        rw [l1, l2, if_neg hei]
      · have l1 : dailyTotalLookup (t :: addDailyTotal e rest) i =
            dailyTotalLookup (addDailyTotal e rest) i := by
          simp [dailyTotalLookup, List.find?, beq_eq_false_iff_ne.mpr hti]
        have l2 : dailyTotalLookup (t :: rest) i = dailyTotalLookup rest i := by
          simp [dailyTotalLookup, List.find?, beq_eq_false_iff_ne.mpr hti]
        rw [l1, l2, ih]

theorem dailyTotalLookup_fold (i : String) :
    ∀ (entries : List DemandEntry) (m : List DailyTotal),
      dailyTotalLookup (entries.foldl (fun m2 e => addDailyTotal e m2) m) i =
        ((entries.filter (fun e => e.itemId == i)).map DemandEntry.totalQuantity).foldl
          (fun a x => omax a (some x)) (dailyTotalLookup m i) := by
  intro entries
  induction entries with
  | nil => intro m; simp
  | cons e rest ih =>
    intro m
    rw [List.foldl_cons, ih (addDailyTotal e m), dailyTotalLookup_addDailyTotal]
    by_cases h : e.itemId = i
    · simp [List.filter_cons, h]
    · simp [List.filter_cons, beq_eq_false_iff_ne.mpr h, h]

theorem foldl_omax_some (l : List Int) :
    ∀ a : Int, l.foldl (fun acc x => omax acc (some x)) (some a) = some (l.foldl max a) := by
  induction l with
  | nil => intro a; rfl
  | cons x xs ih =>
    intro a
    rw [List.foldl_cons, List.foldl_cons]
    exact ih (max a x)

theorem foldl_omax_none (l : List Int) :
    l.foldl (fun acc x => omax acc (some x)) none = l.max? := by
  cases l with
  | nil => rfl
  | cons x xs =>
    rw [List.foldl_cons]
    show xs.foldl (fun acc x => omax acc (some x)) (some x) = (x :: xs).max?
    rw [foldl_omax_some]
    rfl

/-- C7: for every item, the daily-demand summary reports the maximum
single-day aggregated demand over the weekdays on which the item appears
(and `none` exactly when the item never appears). -/
theorem c7_daily_demand_max (orders : List EnrichedAutoOrder) (i : String) :
    dailyTotalLookup (dailyDemandByItem orders) i =
      (((aggregateDemand orders).filter (fun e => e.itemId == i)).map
        DemandEntry.totalQuantity).max? := by
  unfold dailyDemandByItem buildDailyTotals
  rw [dailyTotalLookup_fold]
  have h0 : dailyTotalLookup [] i = none := rfl
  rw [h0, foldl_omax_none]

/-! ### Seven-day walk lemmas -/

theorem menuIds_cons (m : MenuItem) (l : List MenuItem) :
    menuIds (m :: l) = m.id :: menuIds l := rfl

/-- The per-day item record the walk produces for a menu item with demand
`dmd` and post-update cumulative demand `cum`. -/
def mkDayItem (mi : MenuItem) (dmd cum : Int) : ForecastDayItem :=
  ⟨mi.id, mi.name, dmd, mi.stock, cum, mi.stock - cum, decide (mi.stock - cum < 0)⟩

theorem walkItems_fst_not_mem (dm : List DemandEntry) (day : DayOfWeek) (k : String) :
    ∀ (menu : List MenuItem) (tr : String → Int), k ∉ menuIds menu →
      (walkItems dm day tr menu).1 k = tr k := by
  intro menu
  induction menu with
  | nil => intro tr _; rfl
  | cons m0 rest ih =>
    intro tr hk
    rw [menuIds_cons] at hk
    have hk1 : ¬ k = m0.id := fun h => hk (h ▸ List.mem_cons_self _ _)
    have hk2 : k ∉ menuIds rest := fun h => hk (List.mem_cons_of_mem _ h)
    by_cases hdm : demandLookup dm m0.id day = 0
    · simp only [walkItems, hdm, if_pos]
      exact ih tr hk2
    · simp only [walkItems, hdm, if_neg, if_false]
      rw [ih _ hk2]
      simp [beq_eq_false_iff_ne.mpr hk1]

theorem walkItems_fst_mem (dm : List DemandEntry) (day : DayOfWeek) :
    ∀ (menu : List MenuItem) (tr : String → Int) (mi : MenuItem),
      mi ∈ menu → (menuIds menu).Nodup →
      (walkItems dm day tr menu).1 mi.id = tr mi.id + demandLookup dm mi.id day := by
  intro menu
  induction menu with
  | nil => intro tr mi h _; cases h
  | cons m0 rest ih =>
    intro tr mi hmem hnd
    rw [menuIds_cons] at hnd
    have hnd1 : m0.id ∉ menuIds rest := (List.nodup_cons.mp hnd).1
    have hnd2 : (menuIds rest).Nodup := (List.nodup_cons.mp hnd).2
    rcases List.mem_cons.mp hmem with rfl | hmem2
    · by_cases hdm : demandLookup dm mi.id day = 0
      · simp only [walkItems, hdm, if_pos]
        rw [walkItems_fst_not_mem dm day mi.id rest tr hnd1]
        simp [hdm]
      · simp only [walkItems, hdm, if_neg, if_false]
        rw [walkItems_fst_not_mem dm day mi.id rest _ hnd1]
        simp
    · have hidmem : mi.id ∈ menuIds rest := List.mem_map_of_mem MenuItem.id hmem2
      have hne : ¬ mi.id = m0.id := fun h => hnd1 (h ▸ hidmem)
      by_cases hdm : demandLookup dm m0.id day = 0
      · simp only [walkItems, hdm, if_pos]
        exact ih tr mi hmem2 hnd2
      · simp only [walkItems, hdm, if_neg, if_false]
        rw [ih _ mi hmem2 hnd2]
        simp [beq_eq_false_iff_ne.mpr hne]

theorem walkItems_items_ids (dm : List DemandEntry) (day : DayOfWeek) :
    ∀ (menu : List MenuItem) (tr : String → Int),
      ∀ e ∈ (walkItems dm day tr menu).2, e.itemId ∈ menuIds menu := by
  intro menu
  induction menu with
  | nil => intro tr e he; cases he
  | cons m0 rest ih =>
    intro tr e he
    rw [menuIds_cons]
    by_cases hdm : demandLookup dm m0.id day = 0
    · simp only [walkItems, hdm, if_pos] at he
      exact List.mem_cons_of_mem _ (ih tr e he)
    · simp only [walkItems, hdm, if_neg, if_false] at he
      rcases List.mem_cons.mp he with rfl | he2
      · exact List.mem_cons_self _ _
      · exact List.mem_cons_of_mem _ (ih _ e he2)

theorem walkItems_items_spec (dm : List DemandEntry) (day : DayOfWeek) :
    ∀ (menu : List MenuItem) (tr : String → Int) (mi : MenuItem),
      mi ∈ menu → (menuIds menu).Nodup →
      ((demandLookup dm mi.id day = 0 →
          ∀ e ∈ (walkItems dm day tr menu).2, e.itemId ≠ mi.id) ∧
       (demandLookup dm mi.id day ≠ 0 →
          mkDayItem mi (demandLookup dm mi.id day) (tr mi.id + demandLookup dm mi.id day)
              ∈ (walkItems dm day tr menu).2 ∧
          ∀ e ∈ (walkItems dm day tr menu).2, e.itemId = mi.id →
            e = mkDayItem mi (demandLookup dm mi.id day)
                  (tr mi.id + demandLookup dm mi.id day))) := by
  intro menu
  induction menu with
  | nil => intro tr mi h _; cases h
  | cons m0 rest ih =>
    intro tr mi hmem hnd
    rw [menuIds_cons] at hnd
    have hnd1 : m0.id ∉ menuIds rest := (List.nodup_cons.mp hnd).1
    have hnd2 : (menuIds rest).Nodup := (List.nodup_cons.mp hnd).2
    rcases List.mem_cons.mp hmem with rfl | hmem2
    · constructor
      · intro hdm e he
        simp only [walkItems, hdm, if_pos] at he
        exact fun h => hnd1 (h ▸ walkItems_items_ids dm day rest tr e he)
      · intro hdm
        simp only [walkItems, hdm, if_neg, if_false]
        constructor
        · exact List.mem_cons_self _ _
        · intro e he hei
          rcases List.mem_cons.mp he with rfl | he2
          · rfl
          · exact absurd (hei ▸ walkItems_items_ids dm day rest _ e he2) hnd1
    · have hidmem : mi.id ∈ menuIds rest := List.mem_map_of_mem MenuItem.id hmem2
      have hne : ¬ mi.id = m0.id := fun h => hnd1 (h ▸ hidmem)
      by_cases hdm0 : demandLookup dm m0.id day = 0
      · constructor
        · intro hdm e he
          simp only [walkItems, hdm0, if_pos] at he
          exact (ih tr mi hmem2 hnd2).1 hdm e he
        · intro hdm
          simp only [walkItems, hdm0, if_pos]
          exact (ih tr mi hmem2 hnd2).2 hdm
      · have htr2 : (if (mi.id == m0.id) = true then tr m0.id + demandLookup dm m0.id day
            else tr mi.id) = tr mi.id := by
          simp [beq_eq_false_iff_ne.mpr hne]
        constructor
        · intro hdm e he
          simp only [walkItems, hdm0, if_neg, if_false] at he
          rcases List.mem_cons.mp he with rfl | he2
          · exact fun h => hne h.symm
          · exact (ih _ mi hmem2 hnd2).1 hdm e he2
        · intro hdm
          simp only [walkItems, hdm0, if_neg, if_false]
          have hspec := (ih (fun k => if k == m0.id then tr m0.id + demandLookup dm m0.id day
            else tr k) mi hmem2 hnd2).2 hdm
          rw [htr2] at hspec
          constructor
          · exact List.mem_cons_of_mem _ hspec.1
          · intro e he hei
            rcases List.mem_cons.mp he with rfl | he2
            · exact absurd hei (fun h => hne h.symm)
            · exact hspec.2 e he2 hei

theorem forecastFrom_length (menuMap : List MenuItem) (dm : List DemandEntry) (now : Nat) :
    ∀ (offs : List Nat) (tr : String → Int),
      (forecastFrom menuMap dm now offs tr).length = offs.length := by
  intro offs
  induction offs with
  | nil => intro tr; rfl
  | cons o rest ih =>
    intro tr
    simp only [forecastFrom, List.length_cons, ih]

theorem forecast_length (menuMap : List MenuItem) (dm : List DemandEntry) (now : Nat) :
    (forecast menuMap dm now).length = 7 := by
  unfold forecast
  rw [forecastFrom_length]
  rfl

/-- Characterization of one day of the walk: the day's name comes from the
offset's IST weekday, a menu item appears in the day's item list iff its demand
on that weekday is nonzero, and its (unique) record carries the running
cumulative demand `tr + Σ demand` over the offsets processed so far. -/
theorem forecastFrom_day_spec (menuMap : List MenuItem) (dm : List DemandEntry) (now : Nat)
    (mi : MenuItem) (hmem : mi ∈ menuMap) (hnd : (menuIds menuMap).Nodup) :
    ∀ (offs : List Nat) (tr : String → Int) (k : Nat) (hk : k < offs.length)
      (hk2 : k < (forecastFrom menuMap dm now offs tr).length),
      ((forecastFrom menuMap dm now offs tr).get ⟨k, hk2⟩).dayName =
          istDayOfWeek (now + offs.get ⟨k, hk⟩ * MS_PER_DAY) ∧
      (demandLookup dm mi.id (istDayOfWeek (now + offs.get ⟨k, hk⟩ * MS_PER_DAY)) = 0 →
        ∀ e ∈ ((forecastFrom menuMap dm now offs tr).get ⟨k, hk2⟩).items, e.itemId ≠ mi.id) ∧
      (demandLookup dm mi.id (istDayOfWeek (now + offs.get ⟨k, hk⟩ * MS_PER_DAY)) ≠ 0 →
        mkDayItem mi (demandLookup dm mi.id (istDayOfWeek (now + offs.get ⟨k, hk⟩ * MS_PER_DAY)))
            (tr mi.id + cumDemand dm mi.id now (offs.take (k+1))) ∈
          ((forecastFrom menuMap dm now offs tr).get ⟨k, hk2⟩).items ∧
        ∀ e ∈ ((forecastFrom menuMap dm now offs tr).get ⟨k, hk2⟩).items, e.itemId = mi.id →
          e = mkDayItem mi
                (demandLookup dm mi.id (istDayOfWeek (now + offs.get ⟨k, hk⟩ * MS_PER_DAY)))
                (tr mi.id + cumDemand dm mi.id now (offs.take (k+1)))) := by
  intro offs
  induction offs with
  | nil =>
    intro tr k hk
    exact absurd hk (by simp)
  | cons o rest ih =>
    intro tr k
    have hunf : forecastFrom menuMap dm now (o :: rest) tr =
        { date := istDayNumber (now + o * MS_PER_DAY),
          dayName := istDayOfWeek (now + o * MS_PER_DAY),
          items := ((walkItems dm (istDayOfWeek (now + o * MS_PER_DAY)) tr menuMap).2).insertionSort
            itemRel } ::
          forecastFrom menuMap dm now rest
            (walkItems dm (istDayOfWeek (now + o * MS_PER_DAY)) tr menuMap).1 := rfl
    cases k with
    | zero =>
      intro hk hk2
      have htake : cumDemand dm mi.id now ((o :: rest).take (0+1)) =
          demandLookup dm mi.id (istDayOfWeek (now + o * MS_PER_DAY)) := by
        simp [cumDemand]
      have hspec := walkItems_items_spec dm (istDayOfWeek (now + o * MS_PER_DAY))
        menuMap tr mi hmem hnd
      have hmm : ∀ x : ForecastDayItem,
          x ∈ ((forecastFrom menuMap dm now (o :: rest) tr).get ⟨0, hk2⟩).items ↔
            x ∈ (walkItems dm (istDayOfWeek (now + o * MS_PER_DAY)) tr menuMap).2 := by
        intro x
        exact List.mem_insertionSort itemRel
      have hg2 : (o :: rest).get ⟨0, hk⟩ = o := rfl
      rw [hg2, htake]
      refine ⟨rfl, ?_, ?_⟩
      · intro hdm e he
        exact hspec.1 hdm e ((hmm e).mp he)
      · intro hdm
        exact ⟨(hmm _).mpr (hspec.2 hdm).1,
          fun e he hei => (hspec.2 hdm).2 e ((hmm e).mp he) hei⟩
    | succ j =>
      intro hk hk2
      have hkr : j < rest.length := Nat.lt_of_succ_lt_succ hk
      have hk2r : j < (forecastFrom menuMap dm now rest
          (walkItems dm (istDayOfWeek (now + o * MS_PER_DAY)) tr menuMap).1).length := by
        rw [forecastFrom_length]
        exact hkr
      have ihspec := ih ((walkItems dm (istDayOfWeek (now + o * MS_PER_DAY)) tr menuMap).1)
        j hkr hk2r
      have hcum : (walkItems dm (istDayOfWeek (now + o * MS_PER_DAY)) tr menuMap).1 mi.id +
          cumDemand dm mi.id now (rest.take (j+1)) =
          tr mi.id + cumDemand dm mi.id now ((o :: rest).take (j+1+1)) := by
        rw [walkItems_fst_mem dm (istDayOfWeek (now + o * MS_PER_DAY)) menuMap tr mi hmem hnd,
          List.take_succ_cons]
        simp only [cumDemand, List.map_cons, List.sum_cons]
        ring
      rw [hcum] at ihspec
      exact ihspec

/-- Characterization of day `k` of the full forecast run for a menu item:
appearance iff nonzero demand on that day's IST weekday, and the unique record
is `mkDayItem` with cumulative demand summed over offsets `0..k`. -/
theorem forecast_item_spec (menuMap : List MenuItem) (dm : List DemandEntry) (now : Nat)
    (mi : MenuItem) (k : Nat) (hmem : mi ∈ menuMap) (hnd : (menuIds menuMap).Nodup)
    (hk : k < (forecast menuMap dm now).length) :
    (demandLookup dm mi.id (istDayOfWeek (now + k * MS_PER_DAY)) = 0 →
      ∀ e ∈ ((forecast menuMap dm now).get ⟨k, hk⟩).items, e.itemId ≠ mi.id) ∧
    (demandLookup dm mi.id (istDayOfWeek (now + k * MS_PER_DAY)) ≠ 0 →
      mkDayItem mi (demandLookup dm mi.id (istDayOfWeek (now + k * MS_PER_DAY)))
          (cumDemand dm mi.id now (List.range (k+1))) ∈
        ((forecast menuMap dm now).get ⟨k, hk⟩).items ∧
      ∀ e ∈ ((forecast menuMap dm now).get ⟨k, hk⟩).items, e.itemId = mi.id →
        e = mkDayItem mi (demandLookup dm mi.id (istDayOfWeek (now + k * MS_PER_DAY)))
              (cumDemand dm mi.id now (List.range (k+1)))) := by
  have hk7 : k < 7 := by
    rw [← forecast_length menuMap dm now]
    exact hk
  have hkr : k < (List.range 7).length := by
    simpa using hk7
  have hget : (List.range 7).get ⟨k, hkr⟩ = k := List.getElem_range k hkr
  have htake : (List.range 7).take (k+1) = List.range (k+1) := by
    rw [List.take_range]
    congr 1
    omega
  have hspec := forecastFrom_day_spec menuMap dm now mi hmem hnd (List.range 7)
    (fun _ => 0) k hkr hk
  rw [hget, htake] at hspec
  simpa using hspec.2

/-! ### C5, C8, C9 -/

/-- The spec's example item: stock 10. -/
def exMenu : List MenuItem := [⟨"item1", "A", 5, 10, true⟩]

/-- The spec's example demand: 4 units every day of the week. -/
def exDemand : List DemandEntry := ALL_DAYS.map (fun d => ⟨"item1", "A", d, 4⟩)

/-- C5: in the 7-day walk, a menu item appears on a day iff its aggregated
demand on that day's weekday is nonzero (zero-demand items are omitted); its
record carries the running cumulative demand over offsets 0..k of this run,
`remaining = stock - cumulativeDemand` and `risk ↔ remaining < 0` (all packaged
in `mkDayItem`). In particular the stock-10, demand-4/day item has remaining
6, 2, −2, … with risk from day 2 onward. -/
theorem c5_cumulative_walk (menuMap : List MenuItem) (dm : List DemandEntry) (now : Nat)
    (mi : MenuItem) (k : Nat) (hmem : mi ∈ menuMap) (hnd : (menuIds menuMap).Nodup)
    (hk : k < (forecast menuMap dm now).length) :
    ((demandLookup dm mi.id (istDayOfWeek (now + k * MS_PER_DAY)) = 0 →
        ∀ e ∈ ((forecast menuMap dm now).get ⟨k, hk⟩).items, e.itemId ≠ mi.id) ∧
     (demandLookup dm mi.id (istDayOfWeek (now + k * MS_PER_DAY)) ≠ 0 →
        mkDayItem mi (demandLookup dm mi.id (istDayOfWeek (now + k * MS_PER_DAY)))
            (cumDemand dm mi.id now (List.range (k+1))) ∈
          ((forecast menuMap dm now).get ⟨k, hk⟩).items ∧
        ∀ e ∈ ((forecast menuMap dm now).get ⟨k, hk⟩).items, e.itemId = mi.id →
          e = mkDayItem mi (demandLookup dm mi.id (istDayOfWeek (now + k * MS_PER_DAY)))
                (cumDemand dm mi.id now (List.range (k+1))))) ∧
    (forecast exMenu exDemand 0).map (fun fd => fd.items.map
        (fun e => (e.cumulativeDemand, e.remaining, e.risk))) =
      [[(4, 6, false)], [(8, 2, false)], [(12, -2, true)], [(16, -6, true)],
       [(20, -10, true)], [(24, -14, true)], [(28, -18, true)]] :=
  ⟨forecast_item_spec menuMap dm now mi k hmem hnd hk, by decide⟩

theorem c5_cumulative_walk_witness :
    ((⟨"item1", "A", 5, 10, true⟩ : MenuItem) ∈ exMenu ∧ (menuIds exMenu).Nodup ∧
      (2 : Nat) < (forecast exMenu exDemand 0).length) ∧
    (demandLookup exDemand "item1" (istDayOfWeek (0 + 2 * MS_PER_DAY)) ≠ 0 →
      mkDayItem ⟨"item1", "A", 5, 10, true⟩
          (demandLookup exDemand "item1" (istDayOfWeek (0 + 2 * MS_PER_DAY)))
          (cumDemand exDemand "item1" 0 (List.range 3)) ∈
        ((forecast exMenu exDemand 0).get ⟨2, (by decide)⟩).items) ∧
    mkDayItem ⟨"item1", "A", 5, 10, true⟩
        (demandLookup exDemand "item1" (istDayOfWeek (0 + 2 * MS_PER_DAY)))
        (cumDemand exDemand "item1" 0 (List.range 3)) =
      ⟨"item1", "A", 4, 10, 12, -2, true⟩ :=
  ⟨⟨by decide, by decide, by decide⟩,
    fun hdm => ((c5_cumulative_walk exMenu exDemand 0 ⟨"item1", "A", 5, 10, true⟩ 2
      (by decide) (by decide) (by decide)).1.2 hdm).1,
    by decide⟩

instance : IsTotal ForecastDayItem itemRel where
  total a b := by
    unfold itemRel
    by_cases h : a.risk = b.risk
    · rw [if_pos h, if_pos h.symm]
      exact le_total a.itemName b.itemName
    · rw [if_neg h, if_neg (Ne.symm h)]
      cases ha : a.risk
      · cases hb : b.risk
        · exact absurd (ha.trans hb.symm) h
        · exact Or.inr rfl
      · exact Or.inl rfl

instance : IsTrans ForecastDayItem itemRel where
  trans a b c hab hbc := by
    unfold itemRel at hab hbc ⊢
    by_cases h1 : a.risk = b.risk
    · by_cases h2 : b.risk = c.risk
      · rw [if_pos h1] at hab
        rw [if_pos h2] at hbc
        rw [if_pos (h1.trans h2)]
        exact le_trans hab hbc
      · rw [if_neg h2] at hbc
        have hac : ¬ a.risk = c.risk := fun h => h2 (h1.symm.trans h)
        rw [if_neg hac]
        exact h1.trans hbc
    · rw [if_neg h1] at hab
      by_cases h2 : b.risk = c.risk
      · have hac : ¬ a.risk = c.risk := fun h => h1 (h.trans h2.symm)
        rw [if_neg hac]
        exact hab
      · rw [if_neg h2] at hbc
        exact absurd (hab.trans hbc.symm) h1

theorem forecastFrom_items_sorted (menuMap : List MenuItem) (dm : List DemandEntry) (now : Nat) :
    ∀ (offs : List Nat) (tr : String → Int), ∀ fd ∈ forecastFrom menuMap dm now offs tr,
      ∃ l0 : List ForecastDayItem, fd.items = l0.insertionSort itemRel := by
  intro offs
  induction offs with
  | nil => intro tr fd h; cases h
  | cons o rest ih =>
    intro tr fd h
    rcases List.mem_cons.mp h with rfl | h2
    · exact ⟨(walkItems dm (istDayOfWeek (now + o * MS_PER_DAY)) tr menuMap).2, rfl⟩
    · exact ih _ fd h2

/-- C8: within each forecast day, every `risk = true` item precedes every
`risk = false` item, and any two items of equal risk appear in alphabetical
order of name. -/
theorem c8_day_ordering (menuMap : List MenuItem) (dm : List DemandEntry) (now : Nat)
    (fd : ForecastDay) (hfd : fd ∈ forecast menuMap dm now) :
    fd.items.Pairwise (fun a b => (b.risk = true → a.risk = true) ∧
      (a.risk = b.risk → a.itemName ≤ b.itemName)) := by
  unfold forecast at hfd
  obtain ⟨l0, hl⟩ := forecastFrom_items_sorted menuMap dm now (List.range 7) (fun _ => 0) fd hfd
  rw [hl]
  have hs : List.Sorted itemRel (l0.insertionSort itemRel) :=
    List.sorted_insertionSort itemRel l0
  refine List.Pairwise.imp ?_ hs
  intro a b hab
  unfold itemRel at hab
  by_cases h : a.risk = b.risk
  · rw [if_pos h] at hab
    exact ⟨fun hb => h.trans hb, fun _ => hab⟩
  · rw [if_neg h] at hab
    exact ⟨fun _ => hab, fun heq => absurd heq h⟩

/-- A two-item day where the risky item must come first. -/
def exMenu2 : List MenuItem := [⟨"i1", "B", 5, 100, true⟩, ⟨"i2", "A", 5, 0, true⟩]

def exDemand2 : List DemandEntry := [⟨"i1", "B", .Thu, 3⟩, ⟨"i2", "A", .Thu, 2⟩]

theorem c8_day_ordering_witness :
    ((forecast exMenu2 exDemand2 0).get ⟨0, (by decide)⟩ ∈ forecast exMenu2 exDemand2 0) ∧
    ((forecast exMenu2 exDemand2 0).get ⟨0, (by decide)⟩).items.Pairwise
      (fun a b => (b.risk = true → a.risk = true) ∧
        (a.risk = b.risk → a.itemName ≤ b.itemName)) :=
  ⟨List.get_mem _ _ _, c8_day_ordering exMenu2 exDemand2 0 _ (List.get_mem _ _ _)⟩

/-- C9: with all other inputs fixed, lowering one item's stock can only grow
the set of days on which that item is flagged `risk = true`: any day whose
record for the item is risky at the larger stock has a risky record for the
item in the run with the strictly smaller stock. -/
theorem menuIds_map_of_id (f : MenuItem → MenuItem) (hf : ∀ m, (f m).id = m.id) :
    ∀ l : List MenuItem, menuIds (l.map f) = menuIds l := by
  intro l
  induction l with
  | nil => rfl
  | cons m0 r ih =>
    rw [List.map_cons, menuIds_cons, menuIds_cons, hf m0, ih]

theorem c9_risk_monotone (menuMap menu2 : List MenuItem) (dm : List DemandEntry) (now : Nat)
    (mi : MenuItem) (s2 : Int) (k : Nat)
    (hmem : mi ∈ menuMap) (hnd : (menuIds menuMap).Nodup) (hlt : s2 < mi.stock)
    (hmenu2 : menu2 = menuMap.map (fun m => if m.id = mi.id then { m with stock := s2 } else m))
    (hk : k < (forecast menuMap dm now).length)
    (hk2 : k < (forecast menu2 dm now).length)
    (e : ForecastDayItem)
    (he : e ∈ ((forecast menuMap dm now).get ⟨k, hk⟩).items)
    (hei : e.itemId = mi.id) (hrisk : e.risk = true) :
    mkDayItem { mi with stock := s2 }
        (demandLookup dm mi.id (istDayOfWeek (now + k * MS_PER_DAY)))
        (cumDemand dm mi.id now (List.range (k+1))) ∈
      ((forecast menu2 dm now).get ⟨k, hk2⟩).items ∧
    (mkDayItem { mi with stock := s2 }
        (demandLookup dm mi.id (istDayOfWeek (now + k * MS_PER_DAY)))
        (cumDemand dm mi.id now (List.range (k+1)))).risk = true := by
  have hid : ∀ m : MenuItem,
      ((if m.id = mi.id then { m with stock := s2 } else m) : MenuItem).id = m.id := by
    intro m
    by_cases h : m.id = mi.id <;> simp [h]
  have hids : menuIds menu2 = menuIds menuMap := by
    rw [hmenu2]
    exact menuIds_map_of_id _ hid menuMap
  have hnd2 : (menuIds menu2).Nodup := by
    rw [hids]
    exact hnd
  have hmi2 : ({ mi with stock := s2 } : MenuItem) ∈ menu2 := by
    rw [hmenu2]
    have := List.mem_map_of_mem
      (fun m => if m.id = mi.id then ({ m with stock := s2 } : MenuItem) else m) hmem
    simpa using this
  have hspec1 := forecast_item_spec menuMap dm now mi k hmem hnd hk
  have hspec2 := forecast_item_spec menu2 dm now { mi with stock := s2 } k hmi2 hnd2 hk2
  by_cases hdm : demandLookup dm mi.id (istDayOfWeek (now + k * MS_PER_DAY)) = 0
  · exact absurd (hei ▸ rfl) (hspec1.1 hdm e he)
  · have hee := (hspec1.2 hdm).2 e he hei
    have hrisk2 : mi.stock - cumDemand dm mi.id now (List.range (k+1)) < 0 := by
      have hr : e.risk = decide (mi.stock - cumDemand dm mi.id now (List.range (k+1)) < 0) := by
        rw [hee]
        rfl
      exact of_decide_eq_true (hr ▸ hrisk)
    have hrisk3 : s2 - cumDemand dm mi.id now (List.range (k+1)) < 0 := by
      linarith
    exact ⟨(hspec2.2 hdm).1, by simp [mkDayItem, hrisk3]⟩

theorem c9_risk_monotone_witness :
    ((⟨"item1", "A", 5, 10, true⟩ : MenuItem) ∈ exMenu ∧ (3 : Int) < 10 ∧
      exMenu.map (fun m => if m.id = "item1" then { m with stock := 3 } else m) =
        [⟨"item1", "A", 5, 3, true⟩] ∧
      (⟨"item1", "A", 4, 10, 12, -2, true⟩ : ForecastDayItem) ∈
        ((forecast exMenu exDemand 0).get ⟨2, (by decide)⟩).items) ∧
    mkDayItem { (⟨"item1", "A", 5, 10, true⟩ : MenuItem) with stock := 3 }
        (demandLookup exDemand "item1" (istDayOfWeek (0 + 2 * MS_PER_DAY)))
        (cumDemand exDemand "item1" 0 (List.range 3)) ∈
      ((forecast [⟨"item1", "A", 5, 3, true⟩] exDemand 0).get ⟨2, (by decide)⟩).items ∧
    (mkDayItem { (⟨"item1", "A", 5, 10, true⟩ : MenuItem) with stock := 3 }
        (demandLookup exDemand "item1" (istDayOfWeek (0 + 2 * MS_PER_DAY)))
        (cumDemand exDemand "item1" 0 (List.range 3))).risk = true :=
  ⟨⟨by decide, by decide, by decide, by decide⟩,
    c9_risk_monotone exMenu [⟨"item1", "A", 5, 3, true⟩] exDemand 0
      ⟨"item1", "A", 5, 10, true⟩ 3 2
      (by decide) (by decide) (by decide) (by decide) (by decide) (by decide)
      ⟨"item1", "A", 4, 10, 12, -2, true⟩ (by decide) (by decide) (by decide)⟩

end Zayko
